import Mathlib

/-!
Verification of the reliable file transfer protocol (RFTP): a shallow
embedding of the frame codec (`src/rftp/packet.py`), the receiver FSM
(`src/rftp/receiver.py`), the Stop-and-Wait and Go-Back-N sender FSMs
(`src/rftp/sender.py`), and the legacy single-file implementation
(`rftp.py`), together with proofs about them.

Bytes are modelled as `Nat` (each < 256 where produced by the code),
byte strings as `List Nat`.  Machine integers are `Nat` with explicit
`% 2^w` where the Python `struct` packing truncates.
-/

namespace RFTP

/-! ## Big-endian integer serialisation (Python `struct`, network byte order)

`struct.pack` raises for out-of-range values; the encoders below mask
with `% 2^w` instead, and theorems that depend on exact round-trips
carry in-range hypotheses (`WF`).  Every byte expression below already
reduces the value modulo 256, so no separate masking step is needed. -/

/-- Big-endian 16-bit serialisation, as in `struct.pack("!H", n)`. -/
def be16 (n : Nat) : List Nat := [n / 2 ^ 8 % 256, n % 256]

/-- Big-endian 32-bit serialisation, as in `struct.pack("!I", n)`. -/
def be32 (n : Nat) : List Nat :=
  [n / 2 ^ 24 % 256, n / 2 ^ 16 % 256, n / 2 ^ 8 % 256, n % 256]

/-- Big-endian 64-bit serialisation (used for the SHA-1 length field). -/
def be64 (n : Nat) : List Nat :=
  [n / 2 ^ 56 % 256, n / 2 ^ 48 % 256, n / 2 ^ 40 % 256, n / 2 ^ 32 % 256,
   n / 2 ^ 24 % 256, n / 2 ^ 16 % 256, n / 2 ^ 8 % 256, n % 256]

/-- Read a big-endian 32-bit integer from four bytes (`struct.unpack("!I", ...)`). -/
def word32 (b0 b1 b2 b3 : Nat) : Nat := ((b0 * 256 + b1) * 256 + b2) * 256 + b3

/-! ## SHA-1 (`hashlib.sha1`), FIPS 180-4

A faithful executable model: message padding, 16-word schedule extended
to 80 words, 80 compression rounds, 160-bit big-endian digest. -/

/-- 32-bit left rotation by `k` of a word `n < 2^32`. -/
def rotl (k n : Nat) : Nat := ((n <<< k) ||| (n >>> (32 - k))) % 2 ^ 32

/-- SHA-1 compression state: five 32-bit words. -/
structure Sha1State where
  h0 : Nat
  h1 : Nat
  h2 : Nat
  h3 : Nat
  h4 : Nat
deriving DecidableEq

/-- SHA-1 initial state. -/
def sha1Init : Sha1State := ⟨0x67452301, 0xEFCDAB89, 0x98BADCFE, 0x10325476, 0xC3D2E1F0⟩

/-- One step of the message-schedule extension, keeping the most recent
word at the head of the (reversed) schedule. -/
def scheduleStep (rws : List Nat) : List Nat :=
  rotl 1 (rws.getD 2 0 ^^^ rws.getD 7 0 ^^^ rws.getD 13 0 ^^^ rws.getD 15 0) :: rws

/-- Extend a reversed 16-word schedule by `n` further words. -/
def scheduleExt : Nat → List Nat → List Nat
  | 0, rws => rws
  | n + 1, rws => scheduleExt n (scheduleStep rws)

/-- Convert a 64-byte chunk to its 16 big-endian 32-bit words. -/
def chunkWords : List Nat → List Nat
  | b0 :: b1 :: b2 :: b3 :: rest => word32 b0 b1 b2 b3 :: chunkWords rest
  | _ => []

/-- The round function and constant for round `i` of SHA-1. -/
def sha1FK (i b c d : Nat) : Nat × Nat :=
  if i < 20 then ((b &&& c) ||| ((b ^^^ 0xFFFFFFFF) &&& d), 0x5A827999)
  else if i < 40 then (b ^^^ c ^^^ d, 0x6ED9EBA1)
  else if i < 60 then ((b &&& c) ||| (b &&& d) ||| (c &&& d), 0x8F1BBCDC)
  else (b ^^^ c ^^^ d, 0xCA62C1D6)

/-- One SHA-1 compression round on working variables `(a, b, c, d, e)`. -/
def sha1Round (st : Sha1State) (iw : Nat × Nat) : Sha1State :=
  let fk := sha1FK iw.1 st.h1 st.h2 st.h3
  let temp := (rotl 5 st.h0 + fk.1 + st.h4 + fk.2 + iw.2) % 2 ^ 32
  ⟨temp, st.h0, rotl 30 st.h1, st.h2, st.h3⟩

/-- Process one 64-byte chunk, updating the running hash state. -/
def sha1Chunk (h : Sha1State) (chunk : List Nat) : Sha1State :=
  let ws := (scheduleExt 64 (chunkWords chunk).reverse).reverse
  let fin := ws.enum.foldl sha1Round h
  ⟨(h.h0 + fin.h0) % 2 ^ 32, (h.h1 + fin.h1) % 2 ^ 32, (h.h2 + fin.h2) % 2 ^ 32,
   (h.h3 + fin.h3) % 2 ^ 32, (h.h4 + fin.h4) % 2 ^ 32⟩

/-- Structural worker for `chunks64`; the fuel bounds the number of
chunks, and `l.length` is always enough since each step drops at least
one byte of a nonempty list. -/
def chunks64Aux : Nat → List Nat → List (List Nat)
  | 0, _ => []
  | fuel + 1, l => if l = [] then [] else l.take 64 :: chunks64Aux fuel (l.drop 64)

/-- Split a byte string into 64-byte chunks (the padded message length is
always a multiple of 64). -/
def chunks64 (l : List Nat) : List (List Nat) := chunks64Aux l.length l

/-- SHA-1 message padding: `0x80`, zeros to 56 mod 64, 8-byte bit length. -/
def sha1Pad (msg : List Nat) : List Nat :=
  msg ++ [0x80] ++ List.replicate ((64 - (msg.length + 9) % 64) % 64) 0
      ++ be64 (8 * msg.length)

/-- The 20-byte SHA-1 digest of a byte string (`hashlib.sha1(...).digest()`). -/
def sha1 (msg : List Nat) : List Nat :=
  let fin := (chunks64 (sha1Pad msg)).foldl sha1Chunk sha1Init
  be32 fin.h0 ++ be32 fin.h1 ++ be32 fin.h2 ++ be32 fin.h3 ++ be32 fin.h4

/-! ## Frame codec (`src/rftp/packet.py`, `src/rftp/constants.py`)

Header format `!BBHII`: version, kind, flags, seq, ack — 12 bytes,
followed by the 20-byte SHA-1 digest of header ‖ payload, then the
payload. -/

/-- `constants.DATA = 0`. -/
def DATA : Nat := 0

/-- `constants.ACK = 1`. -/
def ACK : Nat := 1

/-- `constants.VERSION = 1`. -/
def VERSION : Nat := 1

/-- `constants.FLAG_FIN = 0x1`. -/
def FLAG_FIN : Nat := 1

/-- `constants.SHA1_LEN = 20`. -/
def SHA1_LEN : Nat := 20

/-- `constants.DEFAULT_SEGMENT_SIZE = 1400`. -/
def DEFAULT_SEGMENT_SIZE : Nat := 1400

/-- The `Frame` dataclass of `packet.py`.  `kind` is the integer value of
`PacketKind` (0 = DATA, 1 = ACK). -/
structure Frame where
  version : Nat
  kind : Nat
  flags : Nat
  seq : Nat
  ack : Nat
  payload : List Nat
deriving DecidableEq

/-- The `fin` property: `bool(flags & FLAG_FIN)`. -/
def Frame.fin (f : Frame) : Bool := (f.flags &&& FLAG_FIN) != 0

/-- The packed 12-byte header, `struct.pack("!BBHII", ...)`.  For
in-range fields this is exact; out-of-range fields are masked (Python
would raise `struct.error` instead, see `WF`). -/
def encodeHeader (f : Frame) : List Nat :=
  [f.version % 256, f.kind % 256] ++ be16 f.flags ++ be32 f.seq ++ be32 f.ack

/-- `Frame.to_bytes`: header ‖ SHA-1(header ‖ payload) ‖ payload. -/
def Frame.to_bytes (f : Frame) : List Nat :=
  let header := encodeHeader f
  header ++ sha1 (header ++ f.payload) ++ f.payload

/-- `Frame.from_bytes`.  All four failure cases (short datagram, checksum
mismatch, version mismatch, invalid kind via the `PacketKind(kind)`
conversion) raise `ValueError` in Python — a single error kind, modelled
as `none`. -/
def Frame.from_bytes (raw : List Nat) : Option Frame :=
  if raw.length < 12 + SHA1_LEN then none
  else
    let header := raw.take 12
    let checksum := (raw.drop 12).take SHA1_LEN
    let payload := raw.drop (12 + SHA1_LEN)
    if sha1 (header ++ payload) ≠ checksum then none
    else
      let version := header.getD 0 0
      let kind := header.getD 1 0
      let flags := header.getD 2 0 * 256 + header.getD 3 0
      let seq := word32 (header.getD 4 0) (header.getD 5 0) (header.getD 6 0) (header.getD 7 0)
      let ack := word32 (header.getD 8 0) (header.getD 9 0) (header.getD 10 0) (header.getD 11 0)
      if version ≠ VERSION then none
      else if kind ≠ DATA ∧ kind ≠ ACK then none
      else some ⟨version, kind, flags, seq, ack, payload⟩

/-- `Frame.make_ack`. -/
def Frame.make_ack (ack_num : Nat) : Frame := ⟨VERSION, ACK, 0, 0, ack_num, []⟩

/-- `Frame.data` (with `ack` fixed to its Python default 0). -/
def Frame.data (seq : Nat) (payload : List Nat) (fin : Bool) : Frame :=
  ⟨VERSION, DATA, if fin then FLAG_FIN else 0, seq, 0, payload⟩

/-- Well-formedness: all header fields in range for `struct.pack("!BBHII", ...)`.
Frames with out-of-range fields make Python raise at encode time. -/
def WF (f : Frame) : Prop :=
  f.version < 256 ∧ f.kind < 256 ∧ f.flags < 2 ^ 16 ∧ f.seq < 2 ^ 32 ∧ f.ack < 2 ^ 32

instance (f : Frame) : Decidable (WF f) := by unfold WF; infer_instance

/-! ## Segmentation of the input stream

The senders read the input stream sequentially in pieces of up to `k =
segment_size` bytes; `chunkAt S k i` is the `i`-th piece, `lastSeq S k`
the sequence number of the first empty read (the FIN segment), and
`flat S k e` everything delivered once the receiver expects `e`. -/

/-- The `i`-th segment of `S` under segment size `k`. -/
def chunkAt (S : List Nat) (k i : Nat) : List Nat := (S.drop (i * k)).take k

/-- The sequence number of the FIN segment: the first `i` with
`i * k ≥ |S|`, i.e. `⌈|S| / k⌉`. -/
def lastSeq (S : List Nat) (k : Nat) : Nat := (S.length + k - 1) / k

/-- The frame a sender builds for sequence number `i`: payload is the
`i`-th segment, FIN iff that read returned no bytes. -/
def specFrame (S : List Nat) (k i : Nat) : Frame :=
  Frame.data i (chunkAt S k i) (chunkAt S k i).isEmpty

/-- Concatenation of the first `e` segments. -/
def flat (S : List Nat) (k e : Nat) : List Nat :=
  ((List.range e).map (chunkAt S k)).flatten

/-! ## Receiver FSM (`src/rftp/receiver.py`)

One inbound event per step.  `Receiver.run` wraps only the
`Frame.from_bytes` call in `try/except ValueError`; the `recvfrom` call
itself is *not* guarded, so a socket timeout propagates out of `run` —
modelled by the `crashed` flag. -/

/-- An inbound event at the receiver: either `recvfrom` returned a
datagram, or it raised `TimeoutError` (socket timeout expired). -/
inductive REvent where
  | timeout : REvent
  | recv : List Nat → REvent

/-- Receiver state: `expected` next sequence, the output sink contents,
the log of emitted ACK frames, loop-exit flag (`break` after the FIN was
accepted), and the crash flag for an uncaught exception. -/
structure RState where
  expected : Nat
  out : List Nat
  acks : List Frame
  done : Bool
  crashed : Bool
deriving DecidableEq

/-- Receiver initial state (`expected = 0`, empty sink). -/
def rInit : RState := ⟨0, [], [], false, false⟩

/-- One iteration of the `Receiver.run` loop. -/
def rStep (st : RState) (e : REvent) : RState :=
  if st.done ∨ st.crashed then st
  else
    match e with
    | .timeout => { st with crashed := true }
    | .recv raw =>
      match Frame.from_bytes raw with
      | none => st
      | some fr =>
        if fr.kind ≠ DATA then st
        else
          let accept := fr.seq = st.expected
          let expected' := if accept then st.expected + 1 else st.expected
          let out' := if accept then st.out ++ fr.payload else st.out
          let st' := { st with
            expected := expected'
            out := out'
            acks := st.acks ++ [Frame.make_ack expected'] }
          if fr.fin ∧ fr.seq < expected' then { st' with done := true } else st'

/-! ## Legacy codec and receiver (`src/rftp.py`)

The earlier single-file implementation: header `!BBIIH20s` (version,
flags, seq, ack, payload_len, embedded checksum), `FLAG_ACK = 0x01`,
`FLAG_FIN = 0x02`.  The digest is computed over the header with a
20-byte zero placeholder for the checksum field. -/

/-- `rftp.py` `FLAG_ACK`. -/
def LFLAG_ACK : Nat := 1

/-- `rftp.py` `FLAG_FIN`. -/
def LFLAG_FIN : Nat := 2

/-- The legacy `Packet` dataclass. -/
structure LPacket where
  version : Nat
  flags : Nat
  seq : Nat
  ack : Nat
  payload : List Nat
deriving DecidableEq

/-- `HEADER_STRUCT.pack("!BBIIH20s", ...)`; the checksum argument is
always a 20-byte string in the code (a digest or the zero placeholder). -/
def legacyHeader (version flags seq ack plen : Nat) (cksum : List Nat) : List Nat :=
  [version % 256, flags % 256] ++ be32 seq ++ be32 ack ++ be16 plen ++ cksum

/-- `compute_checksum`: SHA-1 over the header with a zeroed checksum
field, concatenated with the payload. -/
def compute_checksum (version flags seq ack : Nat) (payload : List Nat) : List Nat :=
  sha1 (legacyHeader version flags seq ack payload.length (List.replicate 20 0) ++ payload)

/-- `build_packet` (the `payload_len > MAX_PAYLOAD` guard raises before
any packet is formed; callers in the model stay within the bound). -/
def build_packet (version flags seq ack : Nat) (payload : List Nat) : List Nat :=
  legacyHeader version flags seq ack payload.length
      (compute_checksum version flags seq ack payload) ++ payload

/-- Result of `parse_packet`: success, `ValueError` (short or truncated),
or `ChecksumError` — the two exception types are distinct in `rftp.py`
and are handled differently by `ReliableReceiver.run`. -/
inductive LParse where
  | ok : LPacket → LParse
  | valueError : LParse
  | checksumError : LParse
deriving DecidableEq

/-- `parse_packet`. -/
def parse_packet (data : List Nat) : LParse :=
  if data.length < 32 then .valueError
  else
    let version := data.getD 0 0
    let flags := data.getD 1 0
    let seq := word32 (data.getD 2 0) (data.getD 3 0) (data.getD 4 0) (data.getD 5 0)
    let ack := word32 (data.getD 6 0) (data.getD 7 0) (data.getD 8 0) (data.getD 9 0)
    let payload_len := data.getD 10 0 * 256 + data.getD 11 0
    let checksum := (data.drop 12).take 20
    let payload := (data.drop 32).take payload_len
    if payload.length ≠ payload_len then .valueError
    else if compute_checksum version flags seq ack payload ≠ checksum then .checksumError
    else .ok ⟨version, flags, seq, ack, payload⟩

/-- The ACK datagram `ReliableReceiver._send_ack` transmits. -/
def legacyAck (expected_seq : Nat) : List Nat := build_packet 1 LFLAG_ACK 0 expected_seq []

/-- Legacy receiver state: `expected_seq`, output file contents, and the
log of ACK datagrams sent. -/
structure LState where
  expected_seq : Nat
  out : List Nat
  acks : List (List Nat)
deriving DecidableEq

/-- Legacy receiver initial state. -/
def lInit : LState := ⟨0, [], []⟩

/-- Outcome of one `ReliableReceiver.run` loop iteration: continue the
loop, abort with an uncaught exception, or `break` after the FIN. -/
inductive LOut where
  | next : LState → LOut
  | crash : LState → LOut
  | finished : LState → LOut
deriving DecidableEq

/-- An inbound event at the legacy receiver. -/
inductive LEvent where
  | timeout : LEvent
  | recv : List Nat → LEvent

/-- One iteration of `ReliableReceiver.run`: `socket.timeout` is caught
(`continue`); `ChecksumError` is caught and *answered with an ACK*;
`ValueError` from `parse_packet` is not caught and aborts the run.  The
FIN payload is `json.loads`-parsed as metadata and not written to the
output file (a malformed JSON body would also raise; not modelled, as no
claim touches it). -/
def legacyStep (st : LState) (e : LEvent) : LOut :=
  match e with
  | .timeout => .next st
  | .recv raw =>
    match parse_packet raw with
    | .valueError => .crash st
    | .checksumError => .next { st with acks := st.acks ++ [legacyAck st.expected_seq] }
    | .ok pkt =>
      if pkt.flags &&& LFLAG_ACK ≠ 0 then .next st
      else if pkt.seq = st.expected_seq then
        let st1 := { st with expected_seq := st.expected_seq + 1 }
        if pkt.flags &&& LFLAG_FIN ≠ 0 then
          .finished { st1 with acks := st1.acks ++ [legacyAck st1.expected_seq] }
        else
          .next { st1 with
            out := st1.out ++ pkt.payload
            acks := st1.acks ++ [legacyAck st1.expected_seq] }
      else .next { st with acks := st.acks ++ [legacyAck st.expected_seq] }

/-! ## Go-Back-N sender FSM (`src/rftp/sender.py`, `GoBackNSender.run`)

State and one-outer-iteration step function.  The wall clock is
abstracted: a `timeout` event carries whether `elapsed_ms >= timeout_ms`
held, and `timer_start` is tracked only as presence (`timerSet`), which
is all the control flow inspects. -/

/-- An inbound event at the GBN sender: `recvfrom` raised `TimeoutError`
(with the timer-expiry comparison result), or returned a datagram. -/
inductive GEvent where
  | timeout : Bool → GEvent
  | recv : List Nat → GEvent

/-- GBN sender state.  `rest` is the unread remainder of the input
stream; `sent` logs every frame passed to `sendto` in order; `reads`
counts `f.read` calls. -/
structure GState where
  base : Nat
  nextSeq : Nat
  buffer : Nat → Option Frame
  rest : List Nat
  eofScheduled : Bool
  timerSet : Bool
  sent : List Frame
  reads : Nat
  done : Bool

/-- GBN initial state. -/
def gInit (S : List Nat) : GState :=
  ⟨0, 0, fun _ => none, S, false, false, [], 0, false⟩

/-- `load_frame`: return the buffered frame, or read the next chunk,
build a DATA frame (FIN iff the read was empty), buffer it, and record
EOF. -/
def load_frame (k : Nat) (st : GState) (seq : Nat) : GState × Frame :=
  match st.buffer seq with
  | some fr => (st, fr)
  | none =>
    let chunk := st.rest.take k
    let fr := Frame.data seq chunk chunk.isEmpty
    ({ st with
       buffer := fun s => if s = seq then some fr else st.buffer s
       rest := st.rest.drop k
       eofScheduled := st.eofScheduled || chunk.isEmpty
       reads := st.reads + 1 }, fr)

/-- The body of one fill iteration after `load_frame`: transmit the
frame (append to the `sent` log), start the timer if absent, and
increment `next_seq`. -/
def sendStep (st : GState) (fr : Frame) : GState :=
  { st with
    sent := st.sent ++ [fr]
    timerSet := true
    nextSeq := st.nextSeq + 1 }

/-- Structural worker for the window-fill loop
(`while next_seq < base + self.window_size`).  Each iteration increments
`next_seq` and leaves `base` unchanged, so fuel `base + W - next_seq`
makes the recursion equivalent to the Python `while`. -/
def fillAux (k W : Nat) : Nat → GState → GState
  | 0, st => st
  | fuel + 1, st =>
    if st.nextSeq < st.base + W then
      let lf := load_frame k st st.nextSeq
      if lf.2.fin then sendStep lf.1 lf.2 else fillAux k W fuel (sendStep lf.1 lf.2)
    else st

/-- The fill-window phase at the top of each outer loop iteration. -/
def fillWindow (k W : Nat) (st : GState) : GState :=
  fillAux k W (st.base + W - st.nextSeq) st

/-- The frames retransmitted on timeout:
`for s in range(base, next_seq): sendto(buffer[s])`.  In reachable
states every key in `[base, next_seq)` is present (see the invariant),
so the `filterMap` drops nothing — Python would raise `KeyError` on a
missing key. -/
def retransFrames (st : GState) : List Frame :=
  ((List.range (st.nextSeq - st.base)).map (fun i => st.base + i)).filterMap st.buffer

/-- The receive-and-handle phase of one outer loop iteration, applied to
the post-fill state. -/
def handleG (st : GState) (e : GEvent) : GState :=
  match e with
  | .timeout expired =>
    if st.timerSet ∧ expired then { st with sent := st.sent ++ retransFrames st }
    else st
  | .recv raw =>
    match Frame.from_bytes raw with
    | none => st
    | some fr =>
      if fr.kind ≠ ACK then st
      else
        let st1 :=
          if st.base < fr.ack then
            { st with
              base := fr.ack
              buffer := fun s => if s < fr.ack then none else st.buffer s
              timerSet := decide (fr.ack ≠ st.nextSeq) }
          else st
        if st1.eofScheduled ∧ st1.base = st1.nextSeq then { st1 with done := true } else st1

/-- One outer iteration of `GoBackNSender.run`: fill the window, then
handle one inbound event; after `break` (`done`) the state is final. -/
def gbnStep (k W : Nat) (st : GState) (e : GEvent) : GState :=
  if st.done then st else handleG (fillWindow k W st) e

/-- States of the GBN sender reachable under arbitrary inbound events
(any datagrams, any timeout interleavings). -/
inductive GReach (S : List Nat) (k W : Nat) : GState → Prop where
  | init : GReach S k W (gInit S)
  | step : ∀ st e, GReach S k W st → GReach S k W (gbnStep k W st e)

/-- States reachable when every parsed inbound ACK acknowledges at most
what has been transmitted (`ack ≤ next_seq` at receipt) — the ACKs an
actual receiver can produce. -/
inductive GReachAck (S : List Nat) (k W : Nat) : GState → Prop where
  | init : GReachAck S k W (gInit S)
  | stepTimeout : ∀ st b, GReachAck S k W st →
      GReachAck S k W (gbnStep k W st (.timeout b))
  | stepRecv : ∀ st raw, GReachAck S k W st →
      (∀ fr, Frame.from_bytes raw = some fr → fr.kind = ACK →
        fr.ack ≤ (fillWindow k W st).nextSeq) →
      GReachAck S k W (gbnStep k W st (.recv raw))

/-! ## Stop-and-Wait sender FSM (`src/rftp/sender.py`, `StopAndWaitSender.run`)

One step per (transmit, await) inner-loop iteration: the current frame
is (re)sent, then one inbound event is handled. -/

/-- An inbound event at the SW sender. -/
inductive SWEvent where
  | timeout : SWEvent
  | recv : List Nat → SWEvent

/-- SW sender state.  `cur` is the frame of the current outer iteration
(`none` before it is built from the next read). -/
structure SWState where
  seq : Nat
  rest : List Nat
  cur : Option Frame
  sent : List Frame
  done : Bool

/-- SW initial state. -/
def swInit (S : List Nat) : SWState := ⟨0, S, none, [], false⟩

/-- The frame of the current outer iteration: the buffered `cur` if
present, else a frame built from the next read (FIN iff the read was
empty), recorded in `cur`. -/
def swBuild (k : Nat) (st : SWState) : SWState × Frame :=
  match st.cur with
  | some fr => (st, fr)
  | none =>
    let chunk := st.rest.take k
    let fr := Frame.data st.seq chunk chunk.isEmpty
    ({ st with rest := st.rest.drop k, cur := some fr }, fr)

/-- Transmit the current frame (append to the `sent` log). -/
def swSend (st : SWState) (fr : Frame) : SWState := { st with sent := st.sent ++ [fr] }

/-- Handle one inbound event after the transmit: timeouts, malformed
datagrams, non-ACKs and wrong ACK values all loop back (retransmitting
on the next iteration); `ack == seq + 1` advances, finishing when the
acknowledged frame was the FIN. -/
def swHandle (st2 : SWState) (fr : Frame) (e : SWEvent) : SWState :=
  match e with
  | .timeout => st2
  | .recv raw =>
    match Frame.from_bytes raw with
    | none => st2
    | some a =>
      if a.kind ≠ ACK then st2
      else if a.ack = st2.seq + 1 then
        if fr.fin then { st2 with seq := st2.seq + 1, done := true }
        else { st2 with seq := st2.seq + 1, cur := none }
      else st2

/-- One inner-loop iteration of `StopAndWaitSender.run`: build the frame
from the next read if needed, transmit it, then handle one inbound
event. -/
def swStep (k : Nat) (st : SWState) (e : SWEvent) : SWState :=
  if st.done then st
  else swHandle (swSend (swBuild k st).1 (swBuild k st).2) (swBuild k st).2 e

/-! ## Composed system: sender + receiver over a lossy channel

The channel may drop, duplicate and reorder datagrams, so at any moment
the deliverable datagrams to one side are exactly the datagrams the
other side has ever sent (each delivered zero or more times, in any
order).  No corruption or injection is modelled — a corrupted datagram
fails the checksum and behaves like a loss. -/

/-- The sender half of the composed system: Stop-and-Wait or Go-Back-N. -/
inductive SndSt where
  | sw : SWState → SndSt
  | gbn : GState → SndSt

/-- The datagram frames this sender has passed to `sendto` so far. -/
def SndSt.sentFrames : SndSt → List Frame
  | .sw s => s.sent
  | .gbn g => g.sent

/-- Global state of a transfer. -/
structure Sys where
  snd : SndSt
  rcv : RState

/-- Reachable global states of a transfer of `S` with segment size `k`
and window size `W` (ignored by SW), under an adversarial
drop/duplicate/reorder channel. -/
inductive SysReach (S : List Nat) (k W : Nat) : Sys → Prop where
  | initSW : SysReach S k W ⟨.sw (swInit S), rInit⟩
  | initGBN : SysReach S k W ⟨.gbn (gInit S), rInit⟩
  | swTimeout : ∀ s r, SysReach S k W ⟨.sw s, r⟩ →
      SysReach S k W ⟨.sw (swStep k s .timeout), r⟩
  | swRecv : ∀ s r raw, SysReach S k W ⟨.sw s, r⟩ →
      raw ∈ r.acks.map Frame.to_bytes →
      SysReach S k W ⟨.sw (swStep k s (.recv raw)), r⟩
  | gbnTimeout : ∀ g r b, SysReach S k W ⟨.gbn g, r⟩ →
      SysReach S k W ⟨.gbn (gbnStep k W g (.timeout b)), r⟩
  | gbnRecv : ∀ g r raw, SysReach S k W ⟨.gbn g, r⟩ →
      raw ∈ r.acks.map Frame.to_bytes →
      SysReach S k W ⟨.gbn (gbnStep k W g (.recv raw)), r⟩
  | rcvTimeout : ∀ snd r, SysReach S k W ⟨snd, r⟩ →
      SysReach S k W ⟨snd, rStep r .timeout⟩
  | rcvRecv : ∀ snd r raw, SysReach S k W ⟨snd, r⟩ →
      raw ∈ snd.sentFrames.map Frame.to_bytes →
      SysReach S k W ⟨snd, rStep r (.recv raw)⟩

/-! ## Invariants (definitions; the proofs are below with the theorems) -/

/-- The GBN sender's internal invariant, maintained under arbitrary
inbound events. -/
def GInv (S : List Nat) (k : Nat) (W : Nat) (g : GState) : Prop :=
  g.rest = S.drop (g.nextSeq * k) ∧
  g.nextSeq ≤ g.base + W ∧
  g.reads = g.nextSeq ∧
  (∀ s f, g.buffer s = some f → f = specFrame S k s ∧ s < g.nextSeq) ∧
  (∀ s, g.base ≤ s → s < g.nextSeq → (g.buffer s).isSome = true) ∧
  (∀ f ∈ g.sent, f = specFrame S k f.seq ∧ f.seq < g.nextSeq)

/-- The SW sender's internal invariant (needs `0 < k`).  The
current-frame clause is stated for live states: the final advance (ACK
of the FIN) increments `seq` while leaving the stale `cur` in place, but
also sets `done`. -/
def SWInv (S : List Nat) (k : Nat) (s : SWState) : Prop :=
  (s.cur = none → s.rest = S.drop (s.seq * k)) ∧
  (s.done = false → ∀ f, s.cur = some f →
    f = specFrame S k s.seq ∧ s.rest = S.drop ((s.seq + 1) * k)) ∧
  (∀ f ∈ s.sent, f = specFrame S k f.seq ∧ f.seq ≤ s.seq) ∧
  (s.done = false → s.seq ≤ lastSeq S k) ∧
  s.seq ≤ lastSeq S k + 1

/-- The receiver's invariant during a transfer of `S`. -/
def RInv (S : List Nat) (k : Nat) (r : RState) : Prop :=
  r.out = flat S k r.expected ∧
  r.expected ≤ lastSeq S k + 1 ∧
  (r.done = true ↔ r.expected = lastSeq S k + 1) ∧
  (∀ a ∈ r.acks, a = Frame.make_ack a.ack ∧ a.ack ≤ lastSeq S k + 1)

/-- The global invariant of the composed system. -/
def SysInv (S : List Nat) (k W : Nat) (sys : Sys) : Prop :=
  (match sys.snd with
   | .sw s => SWInv S k s
   | .gbn g => GInv S k W g ∧ g.base ≤ lastSeq S k + 1) ∧
  RInv S k sys.rcv

/-! ## Theorems -/

/-- The SHA-1 digest is always exactly 20 bytes (`SHA1_LEN`). -/
theorem sha1_length (msg : List Nat) : (sha1 msg).length = 20 := by
  simp [sha1, be32]

theorem encodeHeader_length (f : Frame) : (encodeHeader f).length = 12 := by
  simp [encodeHeader, be16, be32]

/-- Round-trip of the codec: decoding an encoding of a well-formed DATA
or ACK frame with version 1 recovers the frame exactly. -/
theorem from_bytes_to_bytes (f : Frame) (hwf : WF f)
    (hkind : f.kind = DATA ∨ f.kind = ACK) (hver : f.version = VERSION) :
    Frame.from_bytes (Frame.to_bytes f) = some f := by
  obtain ⟨hv, hk, hfl, hs, ha⟩ := hwf
  have hlen : (encodeHeader f).length = 12 := encodeHeader_length f
  have hd20 : (sha1 (encodeHeader f ++ f.payload)).length = 20 := sha1_length _
  have hraw : Frame.to_bytes f
      = encodeHeader f ++ (sha1 (encodeHeader f ++ f.payload) ++ f.payload) := by
    simp [Frame.to_bytes]
  have htake : (Frame.to_bytes f).take 12 = encodeHeader f := by
    rw [hraw, ← hlen, List.take_left]
  have hdrop12 : (Frame.to_bytes f).drop 12
      = sha1 (encodeHeader f ++ f.payload) ++ f.payload := by
    rw [hraw, ← hlen, List.drop_left]
  have hcksum : ((Frame.to_bytes f).drop 12).take 20 = sha1 (encodeHeader f ++ f.payload) := by
    rw [hdrop12, ← hd20, List.take_left]
  have hpayload : (Frame.to_bytes f).drop 32 = f.payload := by
    have h1 : (Frame.to_bytes f).drop 32 = ((Frame.to_bytes f).drop 12).drop 20 := by
      rw [List.drop_drop]
    rw [h1, hdrop12, ← hd20, List.drop_left]
  have hlen_total : ¬ ((Frame.to_bytes f).length < 12 + SHA1_LEN) := by
    rw [hraw]
    simp [hlen, hd20, SHA1_LEN]
    omega
  unfold Frame.from_bytes
  rw [if_neg hlen_total]
  simp only [SHA1_LEN, show (12 : Nat) + 20 = 32 from rfl]
  rw [htake, hcksum, hpayload]
  rw [if_neg (by simp)]
  have hhdr : encodeHeader f
      = [f.version % 256, f.kind % 256, f.flags / 2 ^ 8 % 256, f.flags % 256,
         f.seq / 2 ^ 24 % 256, f.seq / 2 ^ 16 % 256, f.seq / 2 ^ 8 % 256, f.seq % 256,
         f.ack / 2 ^ 24 % 256, f.ack / 2 ^ 16 % 256, f.ack / 2 ^ 8 % 256, f.ack % 256] := by
    simp [encodeHeader, be16, be32]
  rw [hhdr]
  simp only [List.getD_cons_zero, List.getD_cons_succ]
  have hv' : f.version % 256 = f.version := Nat.mod_eq_of_lt hv
  have hk' : f.kind % 256 = f.kind := Nat.mod_eq_of_lt hk
  rw [hv', hk', if_neg (by simp [hver, VERSION])]
  rw [if_neg (by
    rcases hkind with h | h
    · simp [h, DATA]
    · simp [h, ACK])]
  have hfl' : f.flags / 2 ^ 8 % 256 * 256 + f.flags % 256 = f.flags := by omega
  have hs' : word32 (f.seq / 2 ^ 24 % 256) (f.seq / 2 ^ 16 % 256) (f.seq / 2 ^ 8 % 256)
      (f.seq % 256) = f.seq := by unfold word32; omega
  have ha' : word32 (f.ack / 2 ^ 24 % 256) (f.ack / 2 ^ 16 % 256) (f.ack / 2 ^ 8 % 256)
      (f.ack % 256) = f.ack := by unfold word32; omega
  rw [hfl', hs', ha']

/-- Round-trip for DATA frames built by `Frame.data` (any payload, any
FIN setting, in-range sequence number). -/
theorem data_roundtrip (seq : Nat) (payload : List Nat) (fin : Bool)
    (hseq : seq < 2 ^ 32) :
    Frame.from_bytes (Frame.to_bytes (Frame.data seq payload fin))
      = some (Frame.data seq payload fin) := by
  apply from_bytes_to_bytes
  · refine ⟨?_, ?_, ?_, hseq, ?_⟩
    · norm_num [Frame.data, VERSION]
    · norm_num [Frame.data, DATA]
    · cases fin <;> norm_num [Frame.data, FLAG_FIN]
    · norm_num [Frame.data]
  · left; rfl
  · rfl

/-- Round-trip for ACK frames built by `Frame.make_ack` (in-range ack). -/
theorem make_ack_roundtrip (a : Nat) (ha : a < 2 ^ 32) :
    Frame.from_bytes (Frame.to_bytes (Frame.make_ack a)) = some (Frame.make_ack a) := by
  apply from_bytes_to_bytes
  · exact ⟨by norm_num [Frame.make_ack, VERSION], by norm_num [Frame.make_ack, ACK],
      by norm_num [Frame.make_ack], by norm_num [Frame.make_ack], ha⟩
  · right; rfl
  · rfl

/-- C7: frame round-trip.  For every sequence number `seq < 2^32` and
payload with `|payload| ≤ segment_size` (and either FIN setting),
decoding the encoding of the DATA frame succeeds and returns the very
same frame — seq, payload, kind, flags and ack are all preserved. -/
theorem claim_C7_frame_roundtrip (seq : Nat) (payload : List Nat) (fin : Bool)
    (hseq : seq < 2 ^ 32) (hlen : payload.length ≤ DEFAULT_SEGMENT_SIZE) :
    Frame.from_bytes (Frame.to_bytes (Frame.data seq payload fin))
      = some (Frame.data seq payload fin) :=
  data_roundtrip seq payload fin hseq

/-- Witness for C7 at `seq = 3`, payload `"hi"`, no FIN. -/
theorem claim_C7_frame_roundtrip_witness :
    3 < 2 ^ 32 ∧ ([104, 105] : List Nat).length ≤ DEFAULT_SEGMENT_SIZE ∧
    Frame.from_bytes (Frame.to_bytes (Frame.data 3 [104, 105] false))
      = some (Frame.data 3 [104, 105] false) :=
  ⟨by decide, by decide, claim_C7_frame_roundtrip 3 [104, 105] false (by decide) (by decide)⟩

/-- C8: decoding fails exactly when the datagram is shorter than 32
bytes, or the recomputed SHA-1 over header ‖ payload differs from the
embedded checksum, or the version byte is not 1, or the kind byte is
neither DATA nor ACK; all four failures are the one `ValueError` kind,
modelled as the single `none` result. -/
theorem claim_C8_decode_failure_cases (raw : List Nat) :
    Frame.from_bytes raw = none ↔
      raw.length < 32 ∨
      sha1 (raw.take 12 ++ raw.drop 32) ≠ (raw.drop 12).take 20 ∨
      (raw.take 12).getD 0 0 ≠ VERSION ∨
      ¬ ((raw.take 12).getD 1 0 = DATA ∨ (raw.take 12).getD 1 0 = ACK) := by
  unfold Frame.from_bytes
  simp only [SHA1_LEN, show (12 : Nat) + 20 = 32 from rfl]
  split_ifs with h1 h2 h3 h4 <;> simp_all <;> tauto

/-- C4 (amended): the package receiver (`src/rftp/receiver.py`) discards
a datagram that fails to parse silently — the step leaves the entire
receiver state (expected, output sink, emitted-ACK log) unchanged, so no
ACK is emitted and nothing is written. -/
theorem claim_C4_parse_failure_silent (st : RState) (raw : List Nat)
    (hfail : Frame.from_bytes raw = none) :
    rStep st (.recv raw) = st := by
  unfold rStep
  split_ifs with h
  · rfl
  · simp [hfail]

/-- Witness for C4 on the empty datagram (too short to parse) at the
initial receiver state. -/
theorem claim_C4_parse_failure_silent_witness :
    Frame.from_bytes [] = none ∧ rStep rInit (.recv []) = rInit :=
  ⟨by decide, claim_C4_parse_failure_silent rInit [] (by decide)⟩

set_option maxRecDepth 100000 in
/-- C4 counterexample: the legacy receiver (`src/rftp.py`,
`ReliableReceiver.run`) does *not* discard silently.  The all-zero
32-byte datagram fails to parse (checksum mismatch), yet the legacy
receiver answers it with an ACK carrying `expected_seq`. -/
theorem claim_C4_counterexample :
    parse_packet (List.replicate 32 0) = .checksumError ∧
    legacyStep lInit (.recv (List.replicate 32 0))
      = .next ⟨0, [], [legacyAck 0]⟩ := by
  constructor
  · decide
  · decide

/-- C5: a DATA frame whose sequence number differs from `expected`
produces no payload write, leaves `expected` unchanged, and is still
answered with exactly one ACK carrying `expected`. -/
theorem claim_C5_out_of_order_discard (st : RState) (raw : List Nat) (fr : Frame)
    (hlive : st.done = false) (hcr : st.crashed = false)
    (hparse : Frame.from_bytes raw = some fr)
    (hkind : fr.kind = DATA) (hne : fr.seq ≠ st.expected) :
    (rStep st (.recv raw)).out = st.out ∧
    (rStep st (.recv raw)).expected = st.expected ∧
    (rStep st (.recv raw)).acks = st.acks ++ [Frame.make_ack st.expected] := by
  unfold rStep
  rw [if_neg (by simp [hlive, hcr])]
  simp only [hparse]
  rw [if_neg (by simp [hkind])]
  simp only [hne, if_neg, ite_false]
  split <;> simp

/-- Witness for C5: a DATA frame at seq 1 delivered to the initial
receiver (`expected = 0`). -/
theorem claim_C5_out_of_order_discard_witness :
    (rStep rInit (.recv ((Frame.data 1 [42] false).to_bytes))).out = rInit.out ∧
    (rStep rInit (.recv ((Frame.data 1 [42] false).to_bytes))).expected = rInit.expected ∧
    (rStep rInit (.recv ((Frame.data 1 [42] false).to_bytes))).acks
      = rInit.acks ++ [Frame.make_ack rInit.expected] :=
  claim_C5_out_of_order_discard rInit _ (Frame.data 1 [42] false) rfl rfl
    (data_roundtrip 1 [42] false (by decide)) rfl (by decide)

/-- C6 (amended): delivering the same in-order *non-FIN* DATA frame
twice produces exactly one payload write and two ACKs with identical
`ack` values: the first delivery writes and advances `expected`, the
second writes nothing and re-emits the same cumulative ACK. -/
theorem claim_C6_idempotent_duplicate (st : RState) (raw : List Nat) (fr : Frame)
    (hlive : st.done = false) (hcr : st.crashed = false)
    (hparse : Frame.from_bytes raw = some fr)
    (hkind : fr.kind = DATA) (hseq : fr.seq = st.expected) (hfin : fr.fin = false) :
    (rStep st (.recv raw)).out = st.out ++ fr.payload ∧
    (rStep (rStep st (.recv raw)) (.recv raw)).out = (rStep st (.recv raw)).out ∧
    (rStep (rStep st (.recv raw)) (.recv raw)).acks
      = st.acks ++ [Frame.make_ack (st.expected + 1), Frame.make_ack (st.expected + 1)] := by
  have h1 : rStep st (.recv raw)
      = { st with
          expected := st.expected + 1
          out := st.out ++ fr.payload
          acks := st.acks ++ [Frame.make_ack (st.expected + 1)] } := by
    simp [rStep, hlive, hcr, hparse, hkind, hseq, hfin]
  have h2 : rStep (rStep st (.recv raw)) (.recv raw)
      = { st with
          expected := st.expected + 1
          out := st.out ++ fr.payload
          acks := st.acks ++ [Frame.make_ack (st.expected + 1), Frame.make_ack (st.expected + 1)] } := by
    rw [h1]
    simp [rStep, hlive, hcr, hparse, hkind, hseq, hfin]
  rw [h2, h1]
  simp

/-- Witness for C6: the in-order DATA frame at seq 0 with payload `[7]`
delivered twice to the fresh receiver. -/
theorem claim_C6_idempotent_duplicate_witness :
    (rStep rInit (.recv ((Frame.data 0 [7] false).to_bytes))).out
      = rInit.out ++ (Frame.data 0 [7] false).payload ∧
    (rStep (rStep rInit (.recv ((Frame.data 0 [7] false).to_bytes)))
        (.recv ((Frame.data 0 [7] false).to_bytes))).out
      = (rStep rInit (.recv ((Frame.data 0 [7] false).to_bytes))).out ∧
    (rStep (rStep rInit (.recv ((Frame.data 0 [7] false).to_bytes)))
        (.recv ((Frame.data 0 [7] false).to_bytes))).acks
      = rInit.acks ++ [Frame.make_ack (rInit.expected + 1), Frame.make_ack (rInit.expected + 1)] :=
  claim_C6_idempotent_duplicate rInit _ (Frame.data 0 [7] false) rfl rfl
    (data_roundtrip 0 [7] false (by decide)) rfl rfl (by decide)

/-- C6 counterexample: for the in-order *FIN* frame the claim as stated
fails — the receiver exits its loop right after accepting the FIN, so
delivering the same frame twice yields only one emitted ACK, not two. -/
theorem claim_C6_counterexample :
    (rStep (rStep rInit (.recv ((Frame.data 0 [] true).to_bytes)))
        (.recv ((Frame.data 0 [] true).to_bytes))).acks.length = 1 ∧
    ¬ (rStep (rStep rInit (.recv ((Frame.data 0 [] true).to_bytes)))
        (.recv ((Frame.data 0 [] true).to_bytes))).acks.length = 2 := by
  have hp : Frame.from_bytes ((Frame.data 0 [] true).to_bytes)
      = some (Frame.data 0 [] true) := data_roundtrip 0 [] true (by decide)
  have h1 : rStep rInit (.recv ((Frame.data 0 [] true).to_bytes))
      = ⟨1, [], [Frame.make_ack 1], true, false⟩ := by
    unfold rStep
    rw [if_neg (by simp [rInit])]
    simp only [hp]
    norm_num [rInit, Frame.data, Frame.fin, FLAG_FIN, DATA]
  rw [h1]
  have h2 : rStep (⟨1, [], [Frame.make_ack 1], true, false⟩ : RState)
      (.recv ((Frame.data 0 [] true).to_bytes))
      = ⟨1, [], [Frame.make_ack 1], true, false⟩ := by
    unfold rStep
    rw [if_pos (by simp)]
  rw [h2]
  simp

/-- C9: a receive timeout at the package receiver is *not* recovered:
`Receiver.run` has no handler around `recvfrom`, so the `TimeoutError`
propagates and aborts the run (the `crashed` flag), leaving the loop,
whereas the legacy `ReliableReceiver.run` catches `socket.timeout` and
continues unchanged — the behaviour the claim (and the spec) describe. -/
theorem claim_C9_timeout_aborts_receiver :
    (rStep rInit .timeout).crashed = true ∧
    legacyStep lInit .timeout = .next lInit := by
  constructor
  · rfl
  · rfl

/-! ### Segmentation lemmas -/

theorem lastSeq_le_iff (S : List Nat) (k i : Nat) (hk : 0 < k) :
    lastSeq S k ≤ i ↔ S.length ≤ i * k := by
  unfold lastSeq
  rw [Nat.div_le_iff_le_mul_add_pred hk]
  have hm : i * k = k * i := Nat.mul_comm i k
  omega

theorem chunkAt_eq_nil_iff (S : List Nat) (k i : Nat) (hk : 0 < k) :
    chunkAt S k i = [] ↔ lastSeq S k ≤ i := by
  unfold chunkAt
  rw [List.take_eq_nil_iff, List.drop_eq_nil_iff, lastSeq_le_iff S k i hk]
  omega

theorem flat_succ (S : List Nat) (k e : Nat) :
    flat S k (e + 1) = flat S k e ++ chunkAt S k e := by
  simp [flat, List.range_succ]

theorem flat_eq_take (S : List Nat) (k : Nat) : ∀ e, flat S k e = S.take (e * k)
  | 0 => by simp [flat]
  | e + 1 => by
    rw [flat_succ, flat_eq_take S k e, Nat.succ_mul, List.take_add]
    rfl

theorem flat_lastSeq (S : List Nat) (k : Nat) (hk : 0 < k) :
    flat S k (lastSeq S k) = S := by
  rw [flat_eq_take]
  exact List.take_of_length_le ((lastSeq_le_iff S k _ hk).mp (Nat.le_refl _))

theorem flat_lastSeq_succ (S : List Nat) (k : Nat) (hk : 0 < k) :
    flat S k (lastSeq S k + 1) = S := by
  rw [flat_succ, flat_lastSeq S k hk,
    (chunkAt_eq_nil_iff S k _ hk).mpr (Nat.le_refl _), List.append_nil]

theorem specFrame_fin (S : List Nat) (k i : Nat) :
    (specFrame S k i).fin = (chunkAt S k i).isEmpty := by
  unfold specFrame Frame.data Frame.fin
  cases (chunkAt S k i).isEmpty <;> simp [FLAG_FIN]

theorem specFrame_seq (S : List Nat) (k i : Nat) : (specFrame S k i).seq = i := rfl

theorem specFrame_kind (S : List Nat) (k i : Nat) : (specFrame S k i).kind = DATA := rfl

theorem specFrame_payload (S : List Nat) (k i : Nat) :
    (specFrame S k i).payload = chunkAt S k i := rfl

theorem specFrame_roundtrip (S : List Nat) (k i : Nat) (h : i < 2 ^ 32) :
    Frame.from_bytes (Frame.to_bytes (specFrame S k i)) = some (specFrame S k i) :=
  data_roundtrip i (chunkAt S k i) (chunkAt S k i).isEmpty h

/-! ### Go-Back-N window lemmas -/

theorem load_frame_base (k : Nat) (st : GState) (seq : Nat) :
    (load_frame k st seq).1.base = st.base := by
  unfold load_frame; split <;> rfl

theorem load_frame_nextSeq (k : Nat) (st : GState) (seq : Nat) :
    (load_frame k st seq).1.nextSeq = st.nextSeq := by
  unfold load_frame; split <;> rfl

theorem sendStep_base (st : GState) (fr : Frame) : (sendStep st fr).base = st.base := rfl

theorem sendStep_nextSeq (st : GState) (fr : Frame) :
    (sendStep st fr).nextSeq = st.nextSeq + 1 := rfl

theorem fillAux_base (k W : Nat) : ∀ fuel st, (fillAux k W fuel st).base = st.base := by
  intro fuel
  induction fuel with
  | zero => intro st; rfl
  | succ n ih =>
    intro st
    unfold fillAux
    split
    · dsimp only
      split
      · rw [sendStep_base, load_frame_base]
      · rw [ih, sendStep_base, load_frame_base]
    · rfl

theorem fillAux_nextSeq_ge (k W : Nat) :
    ∀ fuel st, st.nextSeq ≤ (fillAux k W fuel st).nextSeq := by
  intro fuel
  induction fuel with
  | zero => intro st; exact Nat.le_refl _
  | succ n ih =>
    intro st
    unfold fillAux
    split
    · dsimp only
      split
      · rw [sendStep_nextSeq, load_frame_nextSeq]
        omega
      · refine Nat.le_trans ?_ (ih _)
        rw [sendStep_nextSeq, load_frame_nextSeq]
        omega
    · exact Nat.le_refl _

theorem fillAux_nextSeq_le (k W : Nat) :
    ∀ fuel st, st.nextSeq ≤ st.base + W → (fillAux k W fuel st).nextSeq ≤ st.base + W := by
  intro fuel
  induction fuel with
  | zero => intro st h; exact h
  | succ n ih =>
    intro st h
    unfold fillAux
    split
    · rename_i hg
      dsimp only
      split
      · rw [sendStep_nextSeq, load_frame_nextSeq]
        omega
      · have h2 := ih (sendStep (load_frame k st st.nextSeq).1 (load_frame k st st.nextSeq).2)
        rw [sendStep_base, sendStep_nextSeq, load_frame_base, load_frame_nextSeq] at h2
        exact h2 (by omega)
    · exact h

theorem fillWindow_base (k W : Nat) (st : GState) : (fillWindow k W st).base = st.base :=
  fillAux_base k W _ st

theorem fillWindow_nextSeq_ge (k W : Nat) (st : GState) :
    st.nextSeq ≤ (fillWindow k W st).nextSeq :=
  fillAux_nextSeq_ge k W _ st

theorem fillWindow_nextSeq_le (k W : Nat) (st : GState)
    (h : st.nextSeq ≤ st.base + W) : (fillWindow k W st).nextSeq ≤ st.base + W :=
  fillAux_nextSeq_le k W _ st h

theorem handleG_timeout_base (st : GState) (b : Bool) :
    (handleG st (.timeout b)).base = st.base := by
  unfold handleG; dsimp only; split <;> rfl

theorem handleG_timeout_nextSeq (st : GState) (b : Bool) :
    (handleG st (.timeout b)).nextSeq = st.nextSeq := by
  unfold handleG; dsimp only; split <;> rfl

theorem handleG_recv_nextSeq (st : GState) (raw : List Nat) :
    (handleG st (.recv raw)).nextSeq = st.nextSeq := by
  unfold handleG
  dsimp only
  cases h : Frame.from_bytes raw with
  | none => rfl
  | some fr =>
    dsimp only
    split
    · rfl
    · split <;> split <;> rfl

theorem handleG_recv_base_ge (st : GState) (raw : List Nat) :
    st.base ≤ (handleG st (.recv raw)).base := by
  unfold handleG
  dsimp only
  cases h : Frame.from_bytes raw with
  | none => exact Nat.le_refl _
  | some fr =>
    dsimp only
    split
    · exact Nat.le_refl _
    · by_cases hb : st.base < fr.ack
      · simp only [if_pos hb]
        split <;> simp <;> omega
      · simp only [if_neg hb]
        split <;> simp

theorem handleG_recv_base_le (st : GState) (raw : List Nat) (A : Nat)
    (hA : st.base ≤ A)
    (hack : ∀ fr, Frame.from_bytes raw = some fr → fr.kind = ACK → fr.ack ≤ A) :
    (handleG st (.recv raw)).base ≤ A := by
  unfold handleG
  dsimp only
  cases h : Frame.from_bytes raw with
  | none => exact hA
  | some fr =>
    dsimp only
    split
    · exact hA
    · rename_i hk
      have hle : fr.ack ≤ A := hack fr h (not_not.mp hk)
      by_cases hb : st.base < fr.ack
      · simp only [if_pos hb]
        split <;> simp <;> omega
      · simp only [if_neg hb]
        split <;> simp <;> omega

/-- C3 (amended): in every state of the Go-Back-N sender reachable under
inbound ACKs that acknowledge at most what has been transmitted
(`ack ≤ next_seq` at receipt — all a receiver fed by this sender can
produce), `base ≤ next_seq` and `next_seq − base ≤ window_size`.  The
second bound needs no ACK restriction; the first fails for arbitrary
forged ACKs (see the counterexample). -/
theorem claim_C3_window_invariant (S : List Nat) (k W : Nat) (g : GState)
    (h : GReachAck S k W g) : g.base ≤ g.nextSeq ∧ g.nextSeq ≤ g.base + W := by
  induction h with
  | init => exact ⟨Nat.le_refl 0, by simp [gInit]⟩
  | stepTimeout st b hst ih =>
    unfold gbnStep
    split
    · exact ih
    · rw [handleG_timeout_base, handleG_timeout_nextSeq, fillWindow_base]
      exact ⟨Nat.le_trans ih.1 (fillWindow_nextSeq_ge k W st),
        fillWindow_nextSeq_le k W st ih.2⟩
  | stepRecv st raw hst hack ih =>
    unfold gbnStep
    split
    · exact ih
    · constructor
      · rw [handleG_recv_nextSeq]
        apply handleG_recv_base_le _ _ ((fillWindow k W st).nextSeq)
        · rw [fillWindow_base]
          exact Nat.le_trans ih.1 (fillWindow_nextSeq_ge k W st)
        · exact hack
      · rw [handleG_recv_nextSeq]
        calc (fillWindow k W st).nextSeq
            ≤ st.base + W := fillWindow_nextSeq_le k W st ih.2
          _ = (fillWindow k W st).base + W := by rw [fillWindow_base]
          _ ≤ (handleG (fillWindow k W st) (.recv raw)).base + W :=
              Nat.add_le_add_right (handleG_recv_base_ge _ _) W

/-- Witness for C3 at the initial GBN state of an empty transfer. -/
theorem claim_C3_window_invariant_witness :
    (gInit []).base ≤ (gInit []).nextSeq ∧ (gInit []).nextSeq ≤ (gInit []).base + 2 :=
  claim_C3_window_invariant [] 1 2 (gInit []) GReachAck.init

set_option maxRecDepth 1000000 in
/-- C3 counterexample: under an arbitrary inbound ACK (a valid-checksum
ACK with `ack = 5` forged beyond `next_seq`), the claim as stated fails:
`GoBackNSender.run` sets `base := ack` without any upper clamp, reaching
a state with `base = 5 > next_seq = 1`. -/
theorem claim_C3_counterexample :
    GReach [] 1 2 (gbnStep 1 2 (gInit []) (.recv ((Frame.make_ack 5).to_bytes))) ∧
    ¬ ((gbnStep 1 2 (gInit []) (.recv ((Frame.make_ack 5).to_bytes))).base
        ≤ (gbnStep 1 2 (gInit []) (.recv ((Frame.make_ack 5).to_bytes))).nextSeq) := by
  constructor
  · exact GReach.step _ _ GReach.init
  · decide

/-- C2: the code bug.  The spec's fill loop is guarded by `¬eof_loaded`,
giving exactly one FIN frame per transfer; the code's fill loop
(`while next_seq < base + self.window_size`) has no such guard, so after
the FIN is sent the next outer iteration reads EOF again and constructs
and transmits a *second* FIN-flagged frame at the next sequence number.
Concretely: empty input, window 2, two timed-out receives — the sender
has transmitted two distinct FIN frames, at seqs 0 and 1. -/
theorem claim_C2_second_fin_code_bug :
    GReach [] 1 2 (gbnStep 1 2 (gbnStep 1 2 (gInit []) (.timeout false)) (.timeout false)) ∧
    ((gbnStep 1 2 (gbnStep 1 2 (gInit []) (.timeout false)) (.timeout false)).sent.map
        (fun f => (f.seq, f.fin))) = [(0, true), (1, true)] :=
  ⟨GReach.step _ _ (GReach.step _ _ GReach.init), by decide⟩

/-! ### The GBN sender invariant -/

theorem ginv_init (S : List Nat) (k W : Nat) : GInv S k W (gInit S) := by
  refine ⟨by simp [gInit], by simp [gInit], rfl, ?_, ?_, ?_⟩
  · intro s f h
    simp [gInit] at h
  · intro s h1 h2
    simp [gInit] at h2
  · intro f hf
    simp [gInit] at hf

theorem ginv_fill_step (S : List Nat) (k W : Nat) (st : GState)
    (hinv : GInv S k W st) (hg : st.nextSeq < st.base + W) :
    GInv S k W (sendStep (load_frame k st st.nextSeq).1 (load_frame k st st.nextSeq).2) := by
  obtain ⟨h1, h2, h3, h4, h5, h6⟩ := hinv
  cases hbuf : st.buffer st.nextSeq with
  | some f => exact absurd ((h4 _ _ hbuf).2) (Nat.lt_irrefl _)
  | none =>
    have hchunk : st.rest.take k = chunkAt S k st.nextSeq := by
      rw [h1]; rfl
    have hfr : Frame.data st.nextSeq (st.rest.take k) (st.rest.take k).isEmpty
        = specFrame S k st.nextSeq := by
      rw [hchunk]; rfl
    have hload : load_frame k st st.nextSeq
        = ({ st with
             buffer := fun s => if s = st.nextSeq
               then some (Frame.data st.nextSeq (st.rest.take k) (st.rest.take k).isEmpty)
               else st.buffer s
             rest := st.rest.drop k
             eofScheduled := st.eofScheduled || (st.rest.take k).isEmpty
             reads := st.reads + 1 },
           Frame.data st.nextSeq (st.rest.take k) (st.rest.take k).isEmpty) := by
      unfold load_frame
      rw [hbuf]
    rw [hload]
    unfold sendStep GInv
    dsimp only
    refine ⟨?_, ?_, ?_, ?_, ?_, ?_⟩
    · show st.rest.drop k = S.drop ((st.nextSeq + 1) * k)
      rw [h1, List.drop_drop, Nat.succ_mul, Nat.add_comm]
    · show st.nextSeq + 1 ≤ st.base + W
      omega
    · show st.reads + 1 = st.nextSeq + 1
      omega
    · intro s f hf
      by_cases hs : s = st.nextSeq
      · rw [if_pos hs] at hf
        cases hf
        subst hs
        exact ⟨hfr, Nat.lt_succ_self _⟩
      · rw [if_neg hs] at hf
        exact ⟨(h4 _ _ hf).1, Nat.lt_succ_of_lt (h4 _ _ hf).2⟩
    · intro s hs1 hs2
      by_cases hs : s = st.nextSeq
      · rw [if_pos hs]; rfl
      · rw [if_neg hs]
        exact h5 s hs1 (by omega)
    · intro f hf
      simp only [List.mem_append, List.mem_singleton] at hf
      cases hf with
      | inl hmem => exact ⟨(h6 f hmem).1, Nat.lt_succ_of_lt (h6 f hmem).2⟩
      | inr heq =>
        subst heq
        rw [hfr]
        exact ⟨rfl, Nat.lt_succ_self _⟩

theorem ginv_fillAux (S : List Nat) (k W : Nat) :
    ∀ fuel st, GInv S k W st → GInv S k W (fillAux k W fuel st) := by
  intro fuel
  induction fuel with
  | zero => intro st h; exact h
  | succ n ih =>
    intro st h
    unfold fillAux
    split
    · rename_i hg
      dsimp only
      split
      · exact ginv_fill_step S k W st h hg
      · exact ih _ (ginv_fill_step S k W st h hg)
    · exact h

theorem ginv_fillWindow (S : List Nat) (k W : Nat) (st : GState)
    (h : GInv S k W st) : GInv S k W (fillWindow k W st) :=
  ginv_fillAux S k W _ st h

theorem ginv_handleG (S : List Nat) (k W : Nat) (st : GState) (e : GEvent)
    (hinv : GInv S k W st) : GInv S k W (handleG st e) := by
  obtain ⟨h1, h2, h3, h4, h5, h6⟩ := hinv
  cases e with
  | timeout b =>
    unfold handleG
    dsimp only
    split
    · refine ⟨h1, h2, h3, h4, h5, ?_⟩
      intro f hf
      simp only [List.mem_append] at hf
      cases hf with
      | inl hmem => exact h6 f hmem
      | inr hmem =>
        obtain ⟨s, -, hs⟩ := List.mem_filterMap.mp hmem
        obtain ⟨hspec, hlt⟩ := h4 s f hs
        subst hspec
        exact ⟨rfl, hlt⟩
    · exact ⟨h1, h2, h3, h4, h5, h6⟩
  | recv raw =>
    unfold handleG
    dsimp only
    cases hp : Frame.from_bytes raw with
    | none => exact ⟨h1, h2, h3, h4, h5, h6⟩
    | some fr =>
      dsimp only
      split
      · exact ⟨h1, h2, h3, h4, h5, h6⟩
      · have hstep : ∀ st1 : GState, GInv S k W st1 →
            GInv S k W (if st1.eofScheduled = true ∧ st1.base = st1.nextSeq
              then { st1 with done := true } else st1) := by
          intro st1 hi
          split
          · exact hi
          · exact hi
        by_cases hb : st.base < fr.ack
        · rw [if_pos hb]
          apply hstep
          refine ⟨h1, by dsimp only; omega, h3, ?_, ?_, ?_⟩
          · intro s f hf
            dsimp only at hf ⊢
            by_cases hs : s < fr.ack
            · rw [if_pos hs] at hf; cases hf
            · rw [if_neg hs] at hf
              exact h4 _ _ hf
          · intro s hs1 hs2
            dsimp only at hs1 hs2 ⊢
            rw [if_neg (by omega)]
            exact h5 s (by omega) hs2
          · exact h6
        · rw [if_neg hb]
          exact hstep st ⟨h1, h2, h3, h4, h5, h6⟩

theorem ginv_gbnStep (S : List Nat) (k W : Nat) (st : GState) (e : GEvent)
    (hinv : GInv S k W st) : GInv S k W (gbnStep k W st e) := by
  unfold gbnStep
  split
  · exact hinv
  · exact ginv_handleG S k W _ e (ginv_fillWindow S k W st hinv)

theorem greach_ginv (S : List Nat) (k W : Nat) (g : GState)
    (h : GReach S k W g) : GInv S k W g := by
  induction h with
  | init => exact ginv_init S k W
  | step st e hst ih => exact ginv_gbnStep S k W st e ih

/-- C10: Go-Back-N retransmissions are byte-identical.  In every
reachable sender state, the input stream has been read exactly once per
loaded sequence number (`reads = next_seq` — `load_frame` returns the
buffered frame for already-loaded keys), and any two transmitted
datagrams carrying the same sequence number encode to exactly the same
bytes, so every timeout retransmission repeats the original bytes. -/
theorem claim_C10_retransmissions_identical (S : List Nat) (k W : Nat) (g : GState)
    (h : GReach S k W g) :
    g.reads = g.nextSeq ∧
    ∀ f1 ∈ g.sent, ∀ f2 ∈ g.sent, f1.seq = f2.seq →
      Frame.to_bytes f1 = Frame.to_bytes f2 := by
  obtain ⟨-, -, h3, -, -, h6⟩ := greach_ginv S k W g h
  refine ⟨h3, ?_⟩
  intro f1 hf1 f2 hf2 hseq
  rw [(h6 f1 hf1).1, (h6 f2 hf2).1, hseq]

/-- Witness for C10 at the state reached from an empty transfer after
one timed-out receive (one frame loaded and sent). -/
theorem claim_C10_retransmissions_identical_witness :
    (gbnStep 1 2 (gInit []) (.timeout false)).reads
      = (gbnStep 1 2 (gInit []) (.timeout false)).nextSeq ∧
    ∀ f1 ∈ (gbnStep 1 2 (gInit []) (.timeout false)).sent,
      ∀ f2 ∈ (gbnStep 1 2 (gInit []) (.timeout false)).sent,
        f1.seq = f2.seq → Frame.to_bytes f1 = Frame.to_bytes f2 :=
  claim_C10_retransmissions_identical [] 1 2 _ (GReach.step _ _ GReach.init)

/-! ### Stop-and-Wait sender invariant -/

theorem swinv_init (S : List Nat) (k : Nat) : SWInv S k (swInit S) := by
  refine ⟨by simp [swInit], ?_, ?_, ?_, ?_⟩
  · intro _ f hf
    simp [swInit] at hf
  · intro f hf
    simp [swInit] at hf
  · intro _
    exact Nat.zero_le _
  · exact Nat.le_succ_of_le (Nat.zero_le _)

theorem swinv_handle (S : List Nat) (k : Nat) (hk : 0 < k) (st2 : SWState) (F : Frame)
    (e : SWEvent)
    (hdone : st2.done = false)
    (hcur : st2.cur = some F)
    (hF : F = specFrame S k st2.seq)
    (hrest : st2.rest = S.drop ((st2.seq + 1) * k))
    (hsent : ∀ f ∈ st2.sent, f = specFrame S k f.seq ∧ f.seq ≤ st2.seq)
    (hseqle : st2.seq ≤ lastSeq S k) :
    SWInv S k (swHandle st2 F e) := by
  have hsame : SWInv S k st2 := by
    refine ⟨?_, ?_, hsent, fun _ => hseqle, Nat.le_succ_of_le hseqle⟩
    · intro hc
      rw [hcur] at hc
      cases hc
    · intro _ f hf
      rw [hcur] at hf
      cases hf
      exact ⟨hF, hrest⟩
  cases e with
  | timeout => exact hsame
  | recv raw =>
    unfold swHandle
    dsimp only
    cases hp : Frame.from_bytes raw with
    | none => exact hsame
    | some a =>
      dsimp only
      split
      · exact hsame
      · split
        · split
          · refine ⟨?_, ?_, ?_, ?_, ?_⟩
            · intro hc
              dsimp only at hc
              rw [hcur] at hc
              cases hc
            · intro hd
              dsimp only at hd
              simp at hd
            · intro f hf
              dsimp only at hf ⊢
              exact ⟨(hsent f hf).1, Nat.le_succ_of_le (hsent f hf).2⟩
            · intro hd
              dsimp only at hd
              simp at hd
            · dsimp only
              omega
          · rename_i hfin
            have hne : chunkAt S k st2.seq ≠ [] := by
              intro hc
              apply hfin
              rw [hF, specFrame_fin, hc]
              rfl
            have hlt : st2.seq < lastSeq S k := by
              have h1 : ¬ lastSeq S k ≤ st2.seq :=
                fun hle => hne ((chunkAt_eq_nil_iff S k _ hk).mpr hle)
              omega
            refine ⟨?_, ?_, ?_, ?_, ?_⟩
            · intro _
              dsimp only
              exact hrest
            · intro _ f hf
              dsimp only at hf
              cases hf
            · intro f hf
              dsimp only at hf ⊢
              exact ⟨(hsent f hf).1, Nat.le_succ_of_le (hsent f hf).2⟩
            · intro _
              dsimp only
              omega
            · dsimp only
              omega
        · exact hsame

theorem swinv_step (S : List Nat) (k : Nat) (hk : 0 < k) (st : SWState) (e : SWEvent)
    (h : SWInv S k st) : SWInv S k (swStep k st e) := by
  obtain ⟨h1, h2, h3, h4, h5⟩ := h
  unfold swStep
  split
  · exact ⟨h1, h2, h3, h4, h5⟩
  · rename_i hd
    have hdone : st.done = false := by simpa using hd
    have hseqle := h4 hdone
    cases hcur : st.cur with
    | some fr =>
      have hbuild : swBuild k st = (st, fr) := by
        unfold swBuild
        rw [hcur]
      rw [hbuild]
      obtain ⟨hfr, hrest⟩ := h2 hdone fr hcur
      refine swinv_handle S k hk (swSend st fr) fr e hdone hcur hfr hrest ?_ hseqle
      intro f hf
      dsimp [swSend] at hf
      rcases List.mem_append.mp hf with hm | hm
      · exact h3 f hm
      · rw [List.mem_singleton] at hm
        subst hm
        subst hfr
        exact ⟨rfl, Nat.le_refl _⟩
    | none =>
      have hrest := h1 hcur
      have hchunk : st.rest.take k = chunkAt S k st.seq := by
        rw [hrest]
        rfl
      have hfr : Frame.data st.seq (st.rest.take k) (st.rest.take k).isEmpty
          = specFrame S k st.seq := by
        rw [hchunk]
        rfl
      have hbuild : swBuild k st
          = ({ st with
               rest := st.rest.drop k
               cur := some (Frame.data st.seq (st.rest.take k) (st.rest.take k).isEmpty) },
             Frame.data st.seq (st.rest.take k) (st.rest.take k).isEmpty) := by
        unfold swBuild
        rw [hcur]
      rw [hbuild]
      refine swinv_handle S k hk
        (swSend { st with
          rest := st.rest.drop k
          cur := some (Frame.data st.seq (st.rest.take k) (st.rest.take k).isEmpty) }
          (Frame.data st.seq (st.rest.take k) (st.rest.take k).isEmpty))
        (Frame.data st.seq (st.rest.take k) (st.rest.take k).isEmpty)
        e hdone rfl hfr ?_ ?_ hseqle
      · show st.rest.drop k = S.drop ((st.seq + 1) * k)
        rw [hrest, List.drop_drop, Nat.succ_mul, Nat.add_comm]
      · intro f hf
        dsimp [swSend] at hf
        rcases List.mem_append.mp hf with hm | hm
        · exact h3 f hm
        · rw [List.mem_singleton] at hm
          subst hm
          rw [hfr]
          exact ⟨rfl, Nat.le_refl _⟩

/-! ### Receiver invariant -/

theorem rinv_init (S : List Nat) (k : Nat) : RInv S k rInit := by
  refine ⟨rfl, Nat.zero_le _, ?_, ?_⟩
  · simp [rInit]
  · intro a ha
    simp [rInit] at ha

theorem rinv_timeout (S : List Nat) (k : Nat) (r : RState)
    (h : RInv S k r) : RInv S k (rStep r .timeout) := by
  unfold rStep
  split
  · exact h
  · exact h

theorem rinv_recv (S : List Nat) (k : Nat) (hk : 0 < k) (r : RState) (f : Frame)
    (hinv : RInv S k r)
    (hf : f = specFrame S k f.seq) (hfseq : f.seq < 2 ^ 32) :
    RInv S k (rStep r (.recv (Frame.to_bytes f))) := by
  obtain ⟨hout, hle, hiff, hacks⟩ := hinv
  unfold rStep
  split
  · exact ⟨hout, hle, hiff, hacks⟩
  · rename_i hlive
    have hdone : r.done = false := by
      rcases not_or.mp hlive with ⟨hd, -⟩
      simpa using hd
    have hexp_le : r.expected ≤ lastSeq S k := by
      have hne : r.expected ≠ lastSeq S k + 1 := by
        intro hc
        have := hiff.mpr hc
        rw [hdone] at this
        cases this
      omega
    have hp : Frame.from_bytes (Frame.to_bytes f) = some f := by
      rw [hf]
      exact specFrame_roundtrip S k f.seq hfseq
    have hkind : f.kind = DATA := by
      rw [hf]
      rfl
    have hfin_iff : f.fin = true ↔ lastSeq S k ≤ f.seq := by
      rw [hf, specFrame_fin, List.isEmpty_iff]
      rw [show (specFrame S k f.seq).seq = f.seq from rfl]
      exact chunkAt_eq_nil_iff S k f.seq hk
    dsimp only
    rw [hp]
    dsimp only
    rw [if_neg (by rw [hkind]; exact fun hc => hc rfl)]
    by_cases haccept : f.seq = r.expected
    · simp only [if_pos haccept]
      split
      · rename_i hcond
        have hfl : lastSeq S k ≤ f.seq := hfin_iff.mp hcond.1
        have hlast : r.expected = lastSeq S k := by omega
        refine ⟨?_, ?_, ?_, ?_⟩
        · dsimp only
          rw [hout, hf]
          rw [show (specFrame S k f.seq).payload = chunkAt S k f.seq from rfl]
          rw [haccept, ← flat_succ]
        · dsimp only
          omega
        · dsimp only
          constructor
          · intro _
            omega
          · intro _
            rfl
        · intro a ha
          dsimp only at ha
          rcases List.mem_append.mp ha with hm | hm
          · exact hacks a hm
          · rw [List.mem_singleton] at hm
            subst hm
            refine ⟨rfl, ?_⟩
            show r.expected + 1 ≤ lastSeq S k + 1
            omega
      · rename_i hcond
        have hnfin : ¬ f.fin = true := by
          intro hc
          exact hcond ⟨hc, by omega⟩
        have hlt : r.expected < lastSeq S k := by
          rcases Nat.lt_or_ge r.expected (lastSeq S k) with hq | hq
          · exact hq
          · exfalso
            apply hnfin
            apply hfin_iff.mpr
            rw [haccept]
            omega
        refine ⟨?_, ?_, ?_, ?_⟩
        · dsimp only
          rw [hout, hf]
          rw [show (specFrame S k f.seq).payload = chunkAt S k f.seq from rfl]
          rw [haccept, ← flat_succ]
        · dsimp only
          omega
        · dsimp only
          rw [hdone]
          constructor
          · intro hc
            cases hc
          · intro hc
            exact absurd hc (by omega)
        · intro a ha
          dsimp only at ha
          rcases List.mem_append.mp ha with hm | hm
          · exact hacks a hm
          · rw [List.mem_singleton] at hm
            subst hm
            refine ⟨rfl, ?_⟩
            show r.expected + 1 ≤ lastSeq S k + 1
            omega
    · simp only [if_neg haccept]
      rw [if_neg (by
        intro hc
        have := hfin_iff.mp hc.1
        omega)]
      refine ⟨hout, hle, ?_, ?_⟩
      · exact hiff
      · intro a ha
        rcases List.mem_append.mp ha with hm | hm
        · exact hacks a hm
        · rw [List.mem_singleton] at hm
          subst hm
          refine ⟨rfl, ?_⟩
          show r.expected ≤ lastSeq S k + 1
          omega

/-! ### The composed-system invariant and end-to-end identity -/

theorem sysreach_inv (S : List Nat) (k W : Nat) (hk : 0 < k)
    (hbound : lastSeq S k + 1 + W < 2 ^ 32) :
    ∀ sys, SysReach S k W sys → SysInv S k W sys := by
  intro sys h
  induction h with
  | initSW => exact ⟨swinv_init S k, rinv_init S k⟩
  | initGBN => exact ⟨⟨ginv_init S k W, Nat.zero_le _⟩, rinv_init S k⟩
  | swTimeout s r hr ih =>
    exact ⟨swinv_step S k hk s .timeout ih.1, ih.2⟩
  | swRecv s r raw hr hmem ih =>
    exact ⟨swinv_step S k hk s (.recv raw) ih.1, ih.2⟩
  | gbnTimeout g r b hr ih =>
    refine ⟨⟨ginv_gbnStep S k W g (.timeout b) ih.1.1, ?_⟩, ih.2⟩
    unfold gbnStep
    split
    · exact ih.1.2
    · rw [handleG_timeout_base, fillWindow_base]
      exact ih.1.2
  | gbnRecv g r raw hr hmem ih =>
    refine ⟨⟨ginv_gbnStep S k W g (.recv raw) ih.1.1, ?_⟩, ih.2⟩
    unfold gbnStep
    split
    · exact ih.1.2
    · apply handleG_recv_base_le _ _ (lastSeq S k + 1)
      · rw [fillWindow_base]
        exact ih.1.2
      · intro fr hfr hkind
        rcases List.mem_map.mp hmem with ⟨a, hamem, harw⟩
        obtain ⟨haeq, hale⟩ := ih.2.2.2.2 a hamem
        have hdec : Frame.from_bytes raw = some a := by
          rw [← harw, haeq]
          exact make_ack_roundtrip a.ack (by omega)
        rw [hdec] at hfr
        cases hfr
        exact hale
  | rcvTimeout snd r hr ih =>
    exact ⟨ih.1, rinv_timeout S k r ih.2⟩
  | rcvRecv snd r raw hr hmem ih =>
    refine ⟨ih.1, ?_⟩
    rcases List.mem_map.mp hmem with ⟨f, hfmem, hfr⟩
    rw [← hfr]
    cases snd with
    | sw s =>
      obtain ⟨hspec, hle'⟩ := ih.1.2.2.1 f hfmem
      have hb' : f.seq < 2 ^ 32 := by
        have h5 := ih.1.2.2.2.2
        omega
      exact rinv_recv S k hk r f ih.2 hspec hb'
    | gbn g =>
      obtain ⟨hg, hbase⟩ := ih.1
      obtain ⟨-, h2, -, -, -, h6⟩ := hg
      obtain ⟨hspec, hlt⟩ := h6 f hfmem
      have hb' : f.seq < 2 ^ 32 := by omega
      exact rinv_recv S k hk r f ih.2 hspec hb'

/-- C1: end-to-end identity under loss.  For any input byte string `S`,
any positive segment size and any window (with the realistic bound that
all sequence numbers stay below `2^32`), in every reachable state of a
Stop-and-Wait or Go-Back-N transfer over a channel that may drop,
duplicate and reorder datagrams arbitrarily, once the receiver has
completed (`done`), its output sink holds exactly the bytes of `S`, in
order. -/
theorem claim_C1_end_to_end_identity (S : List Nat) (k W : Nat) (sys : Sys)
    (hk : 0 < k) (hbound : lastSeq S k + 1 + W < 2 ^ 32)
    (h : SysReach S k W sys) (hdone : sys.rcv.done = true) :
    sys.rcv.out = S := by
  have hinv := (sysreach_inv S k W hk hbound sys h).2
  rw [hinv.1, hinv.2.2.1.mp hdone]
  exact flat_lastSeq_succ S k hk

set_option maxRecDepth 100000 in
/-- Witness for C1: a completed Go-Back-N transfer of the empty stream
(segment size 1, window 1): the sender fills and transmits the FIN
frame, the channel delivers it, the receiver accepts it and completes
with output equal to the input. -/
theorem claim_C1_end_to_end_identity_witness :
    0 < 1 ∧ lastSeq [] 1 + 1 + 1 < 2 ^ 32 ∧
    SysReach [] 1 1
      ⟨.gbn (gbnStep 1 1 (gInit []) (.timeout false)),
       rStep rInit (.recv ((specFrame [] 1 0).to_bytes))⟩ ∧
    (rStep rInit (.recv ((specFrame [] 1 0).to_bytes))).done = true ∧
    (rStep rInit (.recv ((specFrame [] 1 0).to_bytes))).out = [] := by
  have hp : Frame.from_bytes ((specFrame [] 1 0).to_bytes) = some (specFrame [] 1 0) :=
    specFrame_roundtrip [] 1 0 (by norm_num)
  have hstep : rStep rInit (.recv ((specFrame [] 1 0).to_bytes))
      = ⟨1, [], [Frame.make_ack 1], true, false⟩ := by
    unfold rStep
    rw [if_neg (by simp [rInit])]
    simp only [hp]
    norm_num [rInit, specFrame, chunkAt, Frame.data, Frame.fin, FLAG_FIN, DATA]
  have hsent : (gbnStep 1 1 (gInit []) (.timeout false)).sent = [specFrame [] 1 0] := by
    decide
  have hreach : SysReach [] 1 1
      ⟨.gbn (gbnStep 1 1 (gInit []) (.timeout false)),
       rStep rInit (.recv ((specFrame [] 1 0).to_bytes))⟩ := by
    apply SysReach.rcvRecv _ _ _ (SysReach.gbnTimeout _ _ false SysReach.initGBN)
    show (specFrame [] 1 0).to_bytes
      ∈ ((gbnStep 1 1 (gInit []) (.timeout false)).sent).map Frame.to_bytes
    rw [hsent]
    exact List.mem_map_of_mem _ (List.mem_singleton_self _)
  refine ⟨Nat.one_pos, by decide, hreach, by rw [hstep], ?_⟩
  exact claim_C1_end_to_end_identity [] 1 1 _ Nat.one_pos (by decide) hreach (by rw [hstep])

end RFTP
